import Mathlib

/-!
# MfxAttributeProps: typed, strided attribute accessor

Shallow embedding of `CppPluginSupport/src/MfxAttributeProps.h`.

Modelling conventions.

* The memory `data` points to is a finite list of bytes; `data = none` is the null pointer.
  An access whose byte range does not lie inside the pointed-to buffer (or that goes through
  the null pointer) is undefined behaviour in C++ and is the result `none` here.
* `int` is a 32-bit two's complement integer, multi-byte values are little-endian, and the
  `int` product `i*stride` is taken modulo `2^32` (`toInt32`).  The component index is applied
  by pointer arithmetic on the typed pointer, i.e. `sizeof(T) * component` bytes further.
* `float` is IEEE-754 binary32, represented by its bit pattern; the implicit conversion
  `int → float` rounds to nearest, ties to even.
* Alignment is not modelled: an access is defined as soon as its byte range lies inside the
  buffer, whatever the stride.
* The output parameter `*value` of `GetValue` is passed in and returned, so that "left
  unchanged" can be stated.  `GetValueInt` and `GetValueFloat` take it to be a variable of
  its own; `GetValueIntAt` and `GetValueFloatAt` take the destination of the pointer as an
  argument, which may also be a field of the accessor or a place in the buffer.
-/

namespace Mfx

set_option autoImplicit false

/-- One byte of raw attribute memory. -/
abbrev Byte := Fin 256

/-- A C++ `float` (IEEE-754 binary32), represented by its 32-bit pattern. -/
abbrev F32 := Fin 4294967296

/-- The 32-bit pattern `n mod 2^32` as a float. -/
def F32.ofBits (n : Nat) : F32 := ⟨n % 4294967296, Nat.mod_lt n (by decide)⟩

/-- The enum `MfxAttributeType` (`Unknown = -1`, `UByte`, `Int`, `Float`). -/
inductive MfxAttributeType where
  | Unknown
  | UByte
  | Int
  | Float
  deriving DecidableEq, Repr

/-- Two's complement reading of an integer as a 32-bit `int`. -/
def toInt32 (x : Int) : Int := (x + 2147483648) % 4294967296 - 2147483648

/-- Little-endian value of a run of bytes. -/
def leToNat : List Byte → Nat
  | [] => 0
  | b :: bs => b.val + 256 * leToNat bs

/-- The `w` low-order bytes of `n`, little-endian. -/
def natToLE : Nat → Nat → List Byte
  | 0, _ => []
  | w + 1, n => ⟨n % 256, Nat.mod_lt n (by decide)⟩ :: natToLE w (n / 256)

/-- Read `w` bytes at byte offset `off` from the buffer `data` points to. -/
def load (data : Option (List Byte)) (off : Int) (w : Nat) : Option (List Byte) :=
  match data with
  | none => none
  | some buf =>
    if 0 ≤ off ∧ off + (w : Int) ≤ (buf.length : Int) then
      some ((buf.drop off.toNat).take w)
    else none

/-- Overwrite the bytes at byte offset `off` of the buffer `data` points to with `bs`. -/
def store (data : Option (List Byte)) (off : Int) (bs : List Byte) : Option (List Byte) :=
  match data with
  | none => none
  | some buf =>
    if 0 ≤ off ∧ off + (bs.length : Int) ≤ (buf.length : Int) then
      some (buf.take off.toNat ++ bs ++ buf.drop (off.toNat + bs.length))
    else none

/-- Position of the highest set bit of `m` (0 for `m ≤ 1`), by halving at most `fuel` times. -/
def log2Fuel : Nat → Nat → Nat
  | 0, _ => 0
  | fuel + 1, m => if 2 ≤ m then log2Fuel fuel (m / 2) + 1 else 0

/-- Bit pattern of the non-negative float nearest to the natural number `m`
(round to nearest, ties to even), for `m ≤ 2^32`. -/
def floatOfNat (m : Nat) : Nat :=
  if m = 0 then 0
  else
    let e := log2Fuel 64 m
    if e ≤ 23 then (e + 127) * 8388608 + (m * 2 ^ (23 - e) - 8388608)
    else
      let sh := e - 23
      let q := m / 2 ^ sh
      let r := m % 2 ^ sh
      let half := 2 ^ (sh - 1)
      let q1 := if half < r ∨ (r = half ∧ q % 2 = 1) then q + 1 else q
      (e + 127) * 8388608 + (q1 - 8388608)

/-- The implicit C++ conversion `int → float`. -/
def intToFloat (v : Int) : F32 :=
  F32.ofBits (if v < 0 then 2147483648 + floatOfNat v.natAbs else floatOfNat v.natAbs)

/-- The rational number a finite float denotes (exponent field 255, i.e. infinities and
NaNs, has no value). -/
def F32.toRat (f : F32) : Option ℚ :=
  let s := f.val / 2147483648
  let e := f.val / 8388608 % 256
  let m := f.val % 8388608
  if e = 255 then none
  else
    let mag : ℚ := if e = 0 then (m : ℚ) / 2 ^ 149 else ((8388608 + m : Nat) : ℚ) * 2 ^ e / 2 ^ 150
    some (if s = 1 then -mag else mag)

/-- The struct `MfxAttributeProps`.  `data` is `none` for the null pointer and `some buf`
for a pointer to a buffer whose current contents are `buf`. -/
structure MfxAttributeProps where
  type : MfxAttributeType
  stride : Int
  componentCount : Int
  data : Option (List Byte)
  isOwner : Bool
  deriving DecidableEq, Repr

namespace MfxAttributeProps

/-- The default constructor `MfxAttributeProps()`. -/
def ctor : MfxAttributeProps :=
  { type := .Unknown, stride := 0, componentCount := 0, data := none, isOwner := false }

/-- Byte offset of element `i`: the `int` expression `i*stride` in `data + i*stride`. -/
def elementOffset (p : MfxAttributeProps) (i : Int) : Int := toInt32 (i * p.stride)

/-- Byte offset of `((T*)(data + i*stride))[component]` for a component type `T` of `w` bytes. -/
def slotOffset (p : MfxAttributeProps) (w : Nat) (i component : Int) : Int :=
  p.elementOffset i + (w : Int) * component

/-- `bool GetValue(int *value, int i, int component)`; the argument `value` is the content
of `*value` before the call, the result carries its content after the call. -/
def GetValueInt (p : MfxAttributeProps) (value : Int) (i component : Int) : Option (Bool × Int) :=
  match p.type with
  | .UByte =>
    (load p.data (p.slotOffset 1 i component) 1).map fun bs => (true, (leToNat bs : Int))
  | .Int =>
    (load p.data (p.slotOffset 4 i component) 4).map fun bs =>
      (true, toInt32 (leToNat bs))
  | .Float => some (false, value)
  | .Unknown => some (false, value)

/-- `bool GetValue(float *value, int i, int component)`. -/
def GetValueFloat (p : MfxAttributeProps) (value : F32) (i component : Int) :
    Option (Bool × F32) :=
  match p.type with
  | .UByte =>
    (load p.data (p.slotOffset 1 i component) 1).map fun bs =>
      (true, intToFloat (leToNat bs))
  | .Int =>
    (load p.data (p.slotOffset 4 i component) 4).map fun bs =>
      (true, intToFloat (toInt32 (leToNat bs)))
  | .Float =>
    (load p.data (p.slotOffset 4 i component) 4).map fun bs =>
      (true, F32.ofBits (leToNat bs))
  | .Unknown => some (false, value)

/-- `bool SetValue(int value, int i, int component)`; the result carries the accessor
(with the buffer `data` points to) after the call. -/
def SetValueInt (p : MfxAttributeProps) (value : Int) (i component : Int) :
    Option (Bool × MfxAttributeProps) :=
  match p.type with
  | .UByte =>
    (store p.data (p.slotOffset 1 i component) (natToLE 1 (value % 256).toNat)).map
      fun buf => (true, { p with data := some buf })
  | .Int =>
    (store p.data (p.slotOffset 4 i component)
      (natToLE 4 (value % 4294967296).toNat)).map
      fun buf => (true, { p with data := some buf })
  | .Float =>
    (store p.data (p.slotOffset 4 i component)
      (natToLE 4 (intToFloat value).val)).map
      fun buf => (true, { p with data := some buf })
  | .Unknown => some (false, p)

/-- `bool SetValue(float value, int i, int component)`. -/
def SetValueFloat (p : MfxAttributeProps) (value : F32) (i component : Int) :
    Option (Bool × MfxAttributeProps) :=
  match p.type with
  | .UByte => some (false, p)
  | .Int => some (false, p)
  | .Float =>
    (store p.data (p.slotOffset 4 i component) (natToLE 4 value.val)).map
      fun buf => (true, { p with data := some buf })
  | .Unknown => some (false, p)

/-- Size in bytes of one component of the stored type (`sizeof`); `Unknown` has no slot. -/
def typeSize : MfxAttributeType → Nat
  | .UByte => 1
  | .Int => 4
  | .Float => 4
  | .Unknown => 0

/-- The slot `(i, component)`, typed by the stored type, lies inside the buffer `data`
points to. -/
def SlotInBuffer (p : MfxAttributeProps) (i component : Int) : Prop :=
  ∃ buf, p.data = some buf ∧ 0 ≤ p.slotOffset (typeSize p.type) i component ∧
    p.slotOffset (typeSize p.type) i component + (typeSize p.type : Int) ≤ (buf.length : Int)

/-! ### `GetValue` with the destination of its pointer argument

`GetValue` writes its result through a pointer supplied by the caller.  `GetValueInt` and
`GetValueFloat` above take that pointer to refer to a variable of the caller's own.  The
definitions below make the destination explicit, so that a pointer to one of the accessor's
`int` fields or into the buffer can be expressed as well. -/

/-- A `Float` accessor over one zeroed 4-byte element. -/
def floatExample : MfxAttributeProps :=
  { type := .Float, stride := 4, componentCount := 1, data := some [0, 0, 0, 0],
    isOwner := false }

/-- An `Int` accessor with stride 4 over eight bytes. -/
def intExample : MfxAttributeProps :=
  { type := .Int, stride := 4, componentCount := 1, data := some [1, 2, 3, 4, 5, 6, 7, 8],
    isOwner := false }

/-- The accessor `intExample` after `SetValue(-1, 1, 0)`. -/
def intExampleAfter : MfxAttributeProps :=
  { intExample with data := some [1, 2, 3, 4, 255, 255, 255, 255] }

end MfxAttributeProps

/-! ## Bytes, loads and stores -/

theorem length_natToLE (w n : Nat) : (natToLE w n).length = w := by
  induction w generalizing n with
  | zero => rfl
  | succ w ih => simp [natToLE, ih]

theorem leToNat_natToLE (w n : Nat) : leToNat (natToLE w n) = n % 256 ^ w := by
  induction w generalizing n with
  | zero => simp [natToLE, leToNat, Nat.mod_one]
  | succ w ih =>
    simp only [natToLE, leToNat, ih]
    rw [pow_succ, Nat.mul_comm (256 ^ w) 256, Nat.mod_mul]

theorem natToLE_leToNat (bs : List Byte) : natToLE bs.length (leToNat bs) = bs := by
  induction bs with
  | nil => rfl
  | cons b bs ih =>
    have hb := b.isLt
    simp only [List.length_cons, natToLE, leToNat]
    have h1 : (b.val + 256 * leToNat bs) % 256 = b.val := by omega
    have h2 : (b.val + 256 * leToNat bs) / 256 = leToNat bs := by omega
    rw [h2, ih]
    congr 1
    exact Fin.ext h1

theorem store_some_iff (buf buf1 : List Byte) (off : Int) (bs : List Byte) :
    store (some buf) off bs = some buf1 ↔
      (0 ≤ off ∧ off + (bs.length : Int) ≤ (buf.length : Int)) ∧
        buf1 = buf.take off.toNat ++ bs ++ buf.drop (off.toNat + bs.length) := by
  unfold store
  by_cases h : 0 ≤ off ∧ off + (bs.length : Int) ≤ (buf.length : Int)
  · simp only [h, and_self, if_true, Option.some.injEq, true_and]
    exact eq_comm
  · simp [h]

theorem store_length (buf buf1 : List Byte) (off : Int) (bs : List Byte)
    (h : store (some buf) off bs = some buf1) : buf1.length = buf.length := by
  obtain ⟨⟨h0, h1⟩, rfl⟩ := (store_some_iff buf buf1 off bs).1 h
  simp only [List.length_append, List.length_take, List.length_drop]
  omega

theorem load_store (buf buf1 : List Byte) (off : Int) (bs : List Byte)
    (h : store (some buf) off bs = some buf1) : load (some buf1) off bs.length = some bs := by
  have hlen := store_length buf buf1 off bs h
  obtain ⟨⟨h0, h1⟩, rfl⟩ := (store_some_iff buf buf1 off bs).1 h
  simp only [load]
  rw [if_pos ⟨h0, by rw [hlen]; exact h1⟩]
  have ht : (List.take off.toNat buf).length = off.toNat := by
    simp only [List.length_take]; omega
  rw [List.append_assoc, List.drop_left' ht, List.take_left' rfl]

theorem store_frame (buf buf1 : List Byte) (off : Int) (bs : List Byte)
    (h : store (some buf) off bs = some buf1) (k : Nat)
    (hk : ¬ (off ≤ (k : Int) ∧ (k : Int) < off + (bs.length : Int))) : buf1[k]? = buf[k]? := by
  obtain ⟨⟨h0, h1⟩, rfl⟩ := (store_some_iff buf buf1 off bs).1 h
  have ht : (List.take off.toNat buf).length = off.toNat := by
    simp only [List.length_take]; omega
  by_cases hlt : k < off.toNat
  · rw [List.append_assoc, List.getElem?_append_left (by omega)]
    simp [List.getElem?_take, hlt]
  · have hge : off.toNat + bs.length ≤ k := by omega
    rw [List.getElem?_append_right (by simp only [List.length_append]; omega)]
    simp only [List.length_append, ht, List.getElem?_drop]
    congr 1
    omega

/-- Without `int` overflow the element offset is the mathematical product `i*stride`. -/
theorem elementOffset_eq_mul (p : MfxAttributeProps) (i : Int)
    (h : -2147483648 ≤ i * p.stride ∧ i * p.stride < 2147483648) :
    p.elementOffset i = i * p.stride := by
  unfold MfxAttributeProps.elementOffset toInt32
  omega

/-! ## Dispatch on the type tag -/

namespace MfxAttributeProps

/-- C1: on an accessor whose type is `Unknown` (in particular the default-constructed one,
whose `data` is null) each of `GetValue(int*)`, `GetValue(float*)`, `SetValue(int)` and
`SetValue(float)` returns false for every index, component and value, leaves the output
variable (resp. the accessor and its buffer) unchanged, and touches no memory: the call is
defined and has the same result whatever `data` is, the null pointer included. -/
theorem unknown_type_always_fails (p : MfxAttributeProps) (h : p.type = .Unknown)
    (vi : Int) (vf : F32) (i c : Int) :
    p.GetValueInt vi i c = some (false, vi) ∧
    p.GetValueFloat vf i c = some (false, vf) ∧
    p.SetValueInt vi i c = some (false, p) ∧
    p.SetValueFloat vf i c = some (false, p) ∧
    (∀ d : Option (List Byte),
      GetValueInt { p with data := d } vi i c = some (false, vi) ∧
      GetValueFloat { p with data := d } vf i c = some (false, vf) ∧
      SetValueInt { p with data := d } vi i c = some (false, { p with data := d }) ∧
      SetValueFloat { p with data := d } vf i c = some (false, { p with data := d })) := by
  simp [GetValueInt, GetValueFloat, SetValueInt, SetValueFloat, h]

/-- Witness for C1 at the default-constructed accessor. -/
theorem unknown_type_always_fails_witness :
    ctor.type = .Unknown ∧
    ctor.GetValueInt 7 3 1 = some (false, 7) ∧
    ctor.GetValueFloat (F32.ofBits 5) 3 1 = some (false, F32.ofBits 5) ∧
    ctor.SetValueInt 7 3 1 = some (false, ctor) ∧
    ctor.SetValueFloat (F32.ofBits 5) 3 1 = some (false, ctor) :=
  ⟨rfl, (unknown_type_always_fails ctor rfl 7 (F32.ofBits 5) 3 1).1,
    (unknown_type_always_fails ctor rfl 7 (F32.ofBits 5) 3 1).2.1,
    (unknown_type_always_fails ctor rfl 7 (F32.ofBits 5) 3 1).2.2.1,
    (unknown_type_always_fails ctor rfl 7 (F32.ofBits 5) 3 1).2.2.2.1⟩

theorem load_isSome_of_inRange (buf : List Byte) (off : Int) (w : Nat)
    (h : 0 ≤ off ∧ off + (w : Int) ≤ (buf.length : Int)) :
    load (some buf) off w = some ((buf.drop off.toNat).take w) := by
  simp only [load]
  rw [if_pos h]

theorem store_isSome_of_inRange (buf : List Byte) (off : Int) (bs : List Byte)
    (h : 0 ≤ off ∧ off + (bs.length : Int) ≤ (buf.length : Int)) :
    store (some buf) off bs =
      some (buf.take off.toNat ++ bs ++ buf.drop (off.toNat + bs.length)) := by
  simp only [store]
  rw [if_pos h]

/-- C2: the boolean result is decided by the stored type tag alone.  Whatever the index,
component, value and buffer content, a call that returns (i.e. whose access, if any, is
inside the buffer) returns true exactly for the types of the dispatch table:
`GetValue(int*)` iff `UByte` or `Int`; `GetValue(float*)` iff `UByte`, `Int` or `Float`;
`SetValue(int)` iff `UByte`, `Int` or `Float`; `SetValue(float)` iff `Float`.  And every
call on a slot inside the buffer does return. -/
theorem result_decided_by_type (p : MfxAttributeProps) (vi : Int) (vf : F32) (i c : Int) :
    (∀ r, p.GetValueInt vi i c = some r →
      (r.1 = true ↔ (p.type = .UByte ∨ p.type = .Int))) ∧
    (∀ r, p.GetValueFloat vf i c = some r →
      (r.1 = true ↔ (p.type = .UByte ∨ p.type = .Int ∨ p.type = .Float))) ∧
    (∀ r, p.SetValueInt vi i c = some r →
      (r.1 = true ↔ (p.type = .UByte ∨ p.type = .Int ∨ p.type = .Float))) ∧
    (∀ r, p.SetValueFloat vf i c = some r → (r.1 = true ↔ p.type = .Float)) ∧
    (p.SlotInBuffer i c →
      (∃ x, p.GetValueInt vi i c = some (decide (p.type = .UByte ∨ p.type = .Int), x)) ∧
      (∃ x, p.GetValueFloat vf i c =
        some (decide (p.type = .UByte ∨ p.type = .Int ∨ p.type = .Float), x)) ∧
      (∃ q, p.SetValueInt vi i c =
        some (decide (p.type = .UByte ∨ p.type = .Int ∨ p.type = .Float), q)) ∧
      (∃ q, p.SetValueFloat vf i c = some (decide (p.type = .Float), q))) := by
  refine ⟨?_, ?_, ?_, ?_, ?_⟩
  · intro r hr
    unfold GetValueInt at hr
    cases hty : p.type <;> rw [hty] at hr <;> simp only [Option.map_eq_some'] at hr
    · cases hr; simp
    · obtain ⟨bs, -, rfl⟩ := hr; simp
    · obtain ⟨bs, -, rfl⟩ := hr; simp
    · cases hr; simp
  · intro r hr
    unfold GetValueFloat at hr
    cases hty : p.type <;> rw [hty] at hr <;> simp only [Option.map_eq_some'] at hr
    · cases hr; simp
    · obtain ⟨bs, -, rfl⟩ := hr; simp
    · obtain ⟨bs, -, rfl⟩ := hr; simp
    · obtain ⟨bs, -, rfl⟩ := hr; simp
  · intro r hr
    unfold SetValueInt at hr
    cases hty : p.type <;> rw [hty] at hr <;> simp only [Option.map_eq_some'] at hr
    · cases hr; simp
    · obtain ⟨bs, -, rfl⟩ := hr; simp
    · obtain ⟨bs, -, rfl⟩ := hr; simp
    · obtain ⟨bs, -, rfl⟩ := hr; simp
  · intro r hr
    unfold SetValueFloat at hr
    cases hty : p.type <;> rw [hty] at hr <;> simp only [Option.map_eq_some'] at hr
    · cases hr; simp
    · cases hr; simp
    · cases hr; simp
    · obtain ⟨bs, -, rfl⟩ := hr; simp
  · rintro ⟨buf, hd, h0, h1⟩
    unfold GetValueInt GetValueFloat SetValueInt SetValueFloat
    have hst : ∀ bs : List Byte, bs.length = typeSize p.type →
        store (some buf) (p.slotOffset (typeSize p.type) i c) bs =
          some (buf.take (p.slotOffset (typeSize p.type) i c).toNat ++ bs ++
            buf.drop ((p.slotOffset (typeSize p.type) i c).toNat + bs.length)) := by
      intro bs hbs
      exact store_isSome_of_inRange _ _ _ ⟨h0, by rw [hbs]; exact h1⟩
    have hld := load_isSome_of_inRange buf _ _ ⟨h0, h1⟩
    cases hty : p.type <;> rw [hty] at hld hst <;> simp only [typeSize] at hld hst
    · simp
    · simp [hd, hld, hst _ (length_natToLE 1 _)]
    · simp [hd, hld, hst _ (length_natToLE 4 _)]
    · simp [hd, hld, hst _ (length_natToLE 4 _)]

/-- Witness for C2: a `Float` accessor over four bytes, slot `(0, 0)`. -/
theorem result_decided_by_type_witness :
    GetValueInt ⟨.Float, 4, 1, some [0, 0, 0, 0], false⟩ 7 0 0 = some (false, 7) ∧
    (∃ q, SetValueInt ⟨.Float, 4, 1, some [0, 0, 0, 0], false⟩ 7 0 0 = some (true, q)) :=
  have h := (result_decided_by_type ⟨.Float, 4, 1, some [0, 0, 0, 0], false⟩ 7 0 0 0).2.2.2.2
    ⟨[0, 0, 0, 0], rfl, by decide, by decide⟩
  ⟨by rfl, by simpa using h.2.2.1⟩

/-- C3: an operation that returns false is atomic.  A `GetValue` that returns false leaves
the output variable as it was, and a `SetValue` that returns false leaves the accessor, and
with it every byte of the buffer, as it was; this is the case for `GetValue(int*)` on
`Float` and `Unknown`, `GetValue(float*)` on `Unknown`, `SetValue(float)` on `UByte`, `Int`
and `Unknown`, and `SetValue(int)` on `Unknown`, where the call always returns false. -/
theorem failure_is_atomic (p : MfxAttributeProps) (vi : Int) (vf : F32) (i c : Int) :
    (∀ r, p.GetValueInt vi i c = some r → r.1 = false → r.2 = vi) ∧
    (∀ r, p.GetValueFloat vf i c = some r → r.1 = false → r.2 = vf) ∧
    (∀ r, p.SetValueInt vi i c = some r → r.1 = false → r.2 = p) ∧
    (∀ r, p.SetValueFloat vf i c = some r → r.1 = false → r.2 = p) ∧
    (p.type = .Float ∨ p.type = .Unknown → p.GetValueInt vi i c = some (false, vi)) ∧
    (p.type = .Unknown → p.GetValueFloat vf i c = some (false, vf)) ∧
    (p.type = .UByte ∨ p.type = .Int ∨ p.type = .Unknown →
      p.SetValueFloat vf i c = some (false, p)) ∧
    (p.type = .Unknown → p.SetValueInt vi i c = some (false, p)) := by
  refine ⟨?_, ?_, ?_, ?_, ?_, ?_, ?_, ?_⟩
  · intro r hr hf
    unfold GetValueInt at hr
    cases hty : p.type <;> rw [hty] at hr <;> simp only [Option.map_eq_some'] at hr
    · cases hr; rfl
    · obtain ⟨bs, -, rfl⟩ := hr; simp at hf
    · obtain ⟨bs, -, rfl⟩ := hr; simp at hf
    · cases hr; rfl
  · intro r hr hf
    unfold GetValueFloat at hr
    cases hty : p.type <;> rw [hty] at hr <;> simp only [Option.map_eq_some'] at hr
    · cases hr; rfl
    · obtain ⟨bs, -, rfl⟩ := hr; simp at hf
    · obtain ⟨bs, -, rfl⟩ := hr; simp at hf
    · obtain ⟨bs, -, rfl⟩ := hr; simp at hf
  · intro r hr hf
    unfold SetValueInt at hr
    cases hty : p.type <;> rw [hty] at hr <;> simp only [Option.map_eq_some'] at hr
    · cases hr; rfl
    · obtain ⟨bs, -, rfl⟩ := hr; simp at hf
    · obtain ⟨bs, -, rfl⟩ := hr; simp at hf
    · obtain ⟨bs, -, rfl⟩ := hr; simp at hf
  · intro r hr hf
    unfold SetValueFloat at hr
    cases hty : p.type <;> rw [hty] at hr <;> simp only [Option.map_eq_some'] at hr
    · cases hr; rfl
    · cases hr; rfl
    · cases hr; rfl
    · obtain ⟨bs, -, rfl⟩ := hr; simp at hf
  · rintro (h | h) <;> simp [GetValueInt, h]
  · intro h; simp [GetValueFloat, h]
  · rintro (h | h | h) <;> simp [SetValueFloat, h]
  · intro h; simp [SetValueInt, h]

/-- Witness for C3: failing calls on an `Int` accessor and on a `Float` accessor. -/
theorem failure_is_atomic_witness :
    SetValueFloat ⟨.Int, 4, 1, some [1, 2, 3, 4], false⟩ (F32.ofBits 9) 0 0 =
      some (false, ⟨.Int, 4, 1, some [1, 2, 3, 4], false⟩) ∧
    GetValueInt ⟨.Float, 4, 1, some [1, 2, 3, 4], false⟩ 7 0 0 = some (false, 7) :=
  ⟨(failure_is_atomic ⟨.Int, 4, 1, some [1, 2, 3, 4], false⟩ 7 (F32.ofBits 9) 0 0).2.2.2.2.2.2.1
      (Or.inr (Or.inl rfl)),
    (failure_is_atomic ⟨.Float, 4, 1, some [1, 2, 3, 4], false⟩ 7 (F32.ofBits 9) 0 0).2.2.2.2.1
      (Or.inl rfl)⟩

/-! ## Round trips -/

theorem toInt32_of_le (v : Int) (hv : -2147483648 ≤ v ∧ v < 2147483648) :
    toInt32 (((v % 4294967296).toNat % 256 ^ 4 : Nat) : Int) = v := by
  unfold toInt32
  norm_num
  omega

theorem ubyte_of_int (v : Int) : (((v % 256).toNat % 256 ^ 1 : Nat) : Int) = v % 256 := by
  norm_num
  omega

/-- A successful store leaves a buffer from which the same range loads the stored bytes. -/
theorem load_after_store (p : MfxAttributeProps) (w : Nat) (i c : Int) (bs : List Byte)
    (hbs : bs.length = w) (buf : List Byte) (hd : p.data = some buf)
    (h0 : 0 ≤ p.slotOffset w i c)
    (h1 : p.slotOffset w i c + (w : Int) ≤ (buf.length : Int)) :
    ∃ buf1, store p.data (p.slotOffset w i c) bs = some buf1 ∧
      load (some buf1) (p.slotOffset w i c) w = some bs := by
  subst hbs
  have hs := store_isSome_of_inRange buf (p.slotOffset bs.length i c) bs ⟨h0, h1⟩
  exact ⟨_, by rw [hd]; exact hs, load_store buf _ _ bs hs⟩

theorem GetValueInt_UByte (q : MfxAttributeProps) (h : q.type = .UByte) (out i c : Int) :
    q.GetValueInt out i c =
      (load q.data (q.slotOffset 1 i c) 1).map fun bs => (true, (leToNat bs : Int)) := by
  unfold GetValueInt; rw [h]

theorem GetValueInt_Int (q : MfxAttributeProps) (h : q.type = .Int) (out i c : Int) :
    q.GetValueInt out i c =
      (load q.data (q.slotOffset 4 i c) 4).map fun bs => (true, toInt32 (leToNat bs)) := by
  unfold GetValueInt; rw [h]

theorem GetValueFloat_Int (q : MfxAttributeProps) (h : q.type = .Int) (out : F32)
    (i c : Int) :
    q.GetValueFloat out i c =
      (load q.data (q.slotOffset 4 i c) 4).map fun bs =>
        (true, intToFloat (toInt32 (leToNat bs))) := by
  unfold GetValueFloat; rw [h]

theorem GetValueFloat_Float (q : MfxAttributeProps) (h : q.type = .Float) (out : F32)
    (i c : Int) :
    q.GetValueFloat out i c =
      (load q.data (q.slotOffset 4 i c) 4).map fun bs => (true, F32.ofBits (leToNat bs)) := by
  unfold GetValueFloat; rw [h]

theorem SetValueInt_UByte (p : MfxAttributeProps) (h : p.type = .UByte) (v i c : Int) :
    p.SetValueInt v i c =
      (store p.data (p.slotOffset 1 i c) (natToLE 1 (v % 256).toNat)).map
        fun buf => (true, { p with data := some buf }) := by
  unfold SetValueInt; rw [h]

theorem SetValueInt_Int (p : MfxAttributeProps) (h : p.type = .Int) (v i c : Int) :
    p.SetValueInt v i c =
      (store p.data (p.slotOffset 4 i c) (natToLE 4 (v % 4294967296).toNat)).map
        fun buf => (true, { p with data := some buf }) := by
  unfold SetValueInt; rw [h]

theorem SetValueInt_Float (p : MfxAttributeProps) (h : p.type = .Float) (v i c : Int) :
    p.SetValueInt v i c =
      (store p.data (p.slotOffset 4 i c) (natToLE 4 (intToFloat v).val)).map
        fun buf => (true, { p with data := some buf }) := by
  unfold SetValueInt; rw [h]

theorem SetValueFloat_Float (p : MfxAttributeProps) (h : p.type = .Float) (v : F32)
    (i c : Int) :
    p.SetValueFloat v i c =
      (store p.data (p.slotOffset 4 i c) (natToLE 4 v.val)).map
        fun buf => (true, { p with data := some buf }) := by
  unfold SetValueFloat; rw [h]

/-- C5: `UByte` round trip.  For a `UByte`-typed accessor, every `int` value `v` and every
index `i` and component `c` whose byte at offset `i*stride + c` lies inside the buffer,
`SetValue(v, i, c)` returns true and an immediately following `GetValue(int*, i, c)` returns
true and yields `v mod 256`, a value in `0..255`; it is `v` itself when `0 ≤ v ≤ 255`. -/
theorem ubyte_roundtrip (p : MfxAttributeProps) (hty : p.type = .UByte) (v : Int)
    (i c : Int) (hin : p.SlotInBuffer i c) (out : Int) :
    ∃ q, p.SetValueInt v i c = some (true, q) ∧
      q.GetValueInt out i c = some (true, v % 256) ∧
      (0 ≤ v % 256 ∧ v % 256 ≤ 255) ∧
      (0 ≤ v ∧ v ≤ 255 → q.GetValueInt out i c = some (true, v)) := by
  obtain ⟨buf, hd, h0, h1⟩ := hin
  rw [hty] at h0 h1
  obtain ⟨buf1, hs, hl⟩ := load_after_store p 1 i c (natToLE 1 (v % 256).toNat)
    (length_natToLE _ _) buf hd h0 h1
  have hget : GetValueInt { p with data := some buf1 } out i c = some (true, v % 256) := by
    rw [GetValueInt_UByte _ (show type { p with data := some buf1 } = .UByte from hty)]
    show Option.map _ (load (some buf1) (p.slotOffset 1 i c) 1) = _
    rw [hl, Option.map_some', leToNat_natToLE, ubyte_of_int]
  refine ⟨{ p with data := some buf1 }, ?_, hget, by omega, ?_⟩
  · rw [SetValueInt_UByte p hty, hs, Option.map_some']
  · intro hv
    rw [hget, Int.emod_eq_of_lt hv.1 (by omega)]

/-- Witness for C5: stride 1, component 0, writing 200 at index 2 reads back 200. -/
theorem ubyte_roundtrip_witness :
    ∃ q, SetValueInt ⟨.UByte, 1, 1, some [0, 0, 0, 0], false⟩ 200 2 0 = some (true, q) ∧
      q.GetValueInt 0 2 0 = some (true, 200) :=
  have h := ubyte_roundtrip ⟨.UByte, 1, 1, some [0, 0, 0, 0], false⟩ rfl 200 2 0
    ⟨[0, 0, 0, 0], rfl, by decide, by decide⟩ 0
  h.elim fun q hq => ⟨q, hq.1, hq.2.2.2 (by decide)⟩

/-! ## The conversion `int → float` -/

theorem log2Fuel_spec (fuel m : Nat) (h1 : 1 ≤ m) (h2 : m < 2 ^ fuel) :
    2 ^ log2Fuel fuel m ≤ m ∧ m < 2 ^ (log2Fuel fuel m + 1) := by
  induction fuel generalizing m with
  | zero => simp at h2; omega
  | succ f ih =>
    unfold log2Fuel
    split
    · have := ih (m / 2) (by omega) (by rw [pow_succ] at h2; omega)
      rw [pow_succ, pow_succ]
      rw [pow_succ] at this
      omega
    · simp; omega

theorem toRat_of_parts (b s e m : Nat) (hb : b = s * 2147483648 + e * 8388608 + m)
    (hs : s ≤ 1) (he : 0 < e ∧ e < 255) (hm : m < 8388608) :
    (F32.ofBits b).toRat =
      some (if s = 1 then -(((8388608 + m : Nat) : ℚ) * 2 ^ e / 2 ^ 150)
        else ((8388608 + m : Nat) : ℚ) * 2 ^ e / 2 ^ 150) := by
  have hv : (F32.ofBits b).val = b := by
    show b % 4294967296 = b
    omega
  have h1 : b / 2147483648 = s := by omega
  have h2 : b / 8388608 % 256 = e := by omega
  have h3 : b % 8388608 = m := by omega
  have he0 : e ≠ 0 := by omega
  have he255 : e ≠ 255 := by omega
  simp only [F32.toRat, hv, h1, h2, h3, he0, he255, if_false]

theorem floatOfNat_exact (m : Nat) (h0 : 0 < m) (hm : m ≤ 16777216) :
    ∃ e mant, floatOfNat m = e * 8388608 + mant ∧ (0 < e ∧ e < 255) ∧ mant < 8388608 ∧
      ((8388608 + mant : Nat) : ℚ) * 2 ^ e / 2 ^ 150 = (m : ℚ) := by
  obtain ⟨hlo, hhi⟩ := log2Fuel_spec 64 m h0 (by norm_num; omega)
  generalize hl : log2Fuel 64 m = l at hlo hhi
  have hl24 : l ≤ 24 := by
    by_contra hcon
    have : 2 ^ 25 ≤ 2 ^ l := Nat.pow_le_pow_right (by norm_num) (by omega)
    norm_num at this
    omega
  by_cases hl23 : l ≤ 23
  · have hpow : 2 ^ l * 2 ^ (23 - l) = 8388608 := by
      rw [← pow_add]
      have : l + (23 - l) = 23 := by omega
      rw [this]
      norm_num
    have hM1 : 8388608 ≤ m * 2 ^ (23 - l) := by
      rw [← hpow]; exact Nat.mul_le_mul_right _ hlo
    have hM2 : m * 2 ^ (23 - l) < 16777216 := by
      have : m * 2 ^ (23 - l) < 2 ^ (l + 1) * 2 ^ (23 - l) :=
        Nat.mul_lt_mul_of_pos_right hhi (by positivity)
      rw [pow_succ, Nat.mul_right_comm, hpow] at this
      omega
    refine ⟨l + 127, m * 2 ^ (23 - l) - 8388608, ?_, by omega, by omega, ?_⟩
    · unfold floatOfNat
      simp only [hl, hl23, if_true]
      rw [if_neg (by omega)]
    · have hq : (2 : ℚ) ^ (23 - l) * 2 ^ (l + 127) = 2 ^ 150 := by
        rw [← pow_add]
        congr 1
        omega
      have hc : 8388608 + (m * 2 ^ (23 - l) - 8388608) = m * 2 ^ (23 - l) := by omega
      rw [hc]
      push_cast
      rw [mul_assoc, hq]
      field_simp
  · have hl' : l = 24 := by omega
    subst hl'
    have hm' : m = 16777216 := by
      norm_num at hlo
      omega
    subst hm'
    refine ⟨151, 0, ?_, by omega, by omega, by norm_num⟩
    unfold floatOfNat
    simp only [hl]
    norm_num

/-- The conversion `int → float` is exact on `|v| ≤ 2^24`. -/
theorem intToFloat_exact (v : Int) (hv : -16777216 ≤ v ∧ v ≤ 16777216) :
    (intToFloat v).toRat = some (v : ℚ) := by
  by_cases hz : v = 0
  · subst hz
    simp [intToFloat, floatOfNat, F32.toRat, F32.ofBits]
  · obtain ⟨e, mant, hf, he, hmant, hval⟩ :=
      floatOfNat_exact v.natAbs (by omega) (by omega)
    unfold intToFloat
    by_cases hneg : v < 0
    · rw [if_pos hneg, toRat_of_parts _ 1 e mant (by rw [hf]; ring) le_rfl he hmant, if_pos rfl,
        hval]
      congr 1
      rw [← Int.cast_natCast, show (v.natAbs : Int) = -v by omega]
      simp
    · rw [if_neg hneg, toRat_of_parts _ 0 e mant (by rw [hf]; ring) (by omega) he hmant,
        if_neg (by omega), hval]
      congr 1
      rw [← Int.cast_natCast, show (v.natAbs : Int) = v by omega]

theorem toRat_of_sig (s E Q : Nat) (hs : s ≤ 1) (hE : 0 < E ∧ E < 254)
    (hQ : 8388608 ≤ Q ∧ Q ≤ 16777216) :
    (F32.ofBits (s * 2147483648 + (E * 8388608 + (Q - 8388608)))).toRat =
      some (if s = 1 then -((Q : ℚ) * 2 ^ E / 2 ^ 150) else (Q : ℚ) * 2 ^ E / 2 ^ 150) := by
  by_cases hc : Q = 16777216
  · subst hc
    rw [toRat_of_parts _ s (E + 1) 0 (by omega) hs (by omega) (by omega)]
    have : ((8388608 + 0 : Nat) : ℚ) * 2 ^ (E + 1) / 2 ^ 150 =
        ((16777216 : Nat) : ℚ) * 2 ^ E / 2 ^ 150 := by
      rw [pow_succ]; push_cast; ring
    rw [this]
  · rw [toRat_of_parts _ s E (Q - 8388608) (by omega) hs (by omega) (by omega)]
    have : 8388608 + (Q - 8388608) = Q := by omega
    rw [this]

theorem floatOfNat_near (m : Nat) (h0 : 16777216 < m) (hm : m ≤ 2147483648) :
    ∃ E Q, floatOfNat m = E * 8388608 + (Q - 8388608) ∧ (0 < E ∧ E < 254) ∧
      (8388608 ≤ Q ∧ Q ≤ 16777216) ∧
      |(Q : ℚ) * 2 ^ E / 2 ^ 150 - (m : ℚ)| * 16777216 ≤ (m : ℚ) := by
  obtain ⟨hlo, hhi⟩ := log2Fuel_spec 64 m (by omega) (by norm_num; omega)
  generalize hl : log2Fuel 64 m = l at hlo hhi
  have hl31 : l ≤ 31 := by
    by_contra hcon
    have : 2 ^ 32 ≤ 2 ^ l := Nat.pow_le_pow_right (by norm_num) (by omega)
    norm_num at this
    omega
  have hl24 : 24 ≤ l := by
    by_contra hcon
    have : 2 ^ (l + 1) ≤ 2 ^ 24 := Nat.pow_le_pow_right (by norm_num) (by omega)
    norm_num at this
    omega
  obtain ⟨sh, rfl⟩ : ∃ sh, l = sh + 24 := ⟨l - 24, by omega⟩
  have hfl : floatOfNat m = (sh + 24 + 127) * 8388608 +
      ((if 2 ^ sh < m % 2 ^ (sh + 1) ∨ (m % 2 ^ (sh + 1) = 2 ^ sh ∧ m / 2 ^ (sh + 1) % 2 = 1)
        then m / 2 ^ (sh + 1) + 1 else m / 2 ^ (sh + 1)) - 8388608) := by
    have hsh : sh + 24 - 23 = sh + 1 := by omega
    unfold floatOfNat
    simp only [hl, hsh, Nat.add_sub_cancel]
    rw [if_neg (by omega), if_neg (by omega)]
  have hP : 2 ^ (sh + 24) = 16777216 * 2 ^ sh := by rw [pow_add]; norm_num; ring
  have hP1 : 2 ^ (sh + 24 + 1) = 33554432 * 2 ^ sh := by rw [pow_succ, hP]; ring
  rw [hP] at hlo
  rw [hP1] at hhi
  have hdm := Nat.div_add_mod m (2 ^ (sh + 1))
  have hmod := Nat.mod_lt m (show 0 < 2 ^ (sh + 1) by positivity)
  have hE : (2 : ℚ) ^ (sh + 24 + 127) = 2 ^ sh * 2 * 2 ^ 150 := by
    rw [show sh + 24 + 127 = sh + 1 + 150 by omega, pow_add, pow_succ]
  rw [hfl]
  generalize m / 2 ^ (sh + 1) = q at hdm ⊢
  generalize m % 2 ^ (sh + 1) = r at hdm hmod ⊢
  rw [pow_succ] at hdm hmod
  have hHq : ((2 ^ sh : Nat) : ℚ) = 2 ^ sh := by push_cast; rfl
  rw [← hHq] at hE
  generalize 2 ^ sh = H at *
  have hqH : H * 2 * q = 2 * (q * H) := by ring
  rw [hqH] at hdm
  have hq_lo : 8388608 ≤ q := by
    by_contra hcon
    have : (q + 1) * H ≤ 8388608 * H := Nat.mul_le_mul_right H (by omega)
    rw [Nat.add_mul] at this
    omega
  have hq_hi : q < 16777216 := by
    by_contra hcon
    have : 16777216 * H ≤ q * H := Nat.mul_le_mul_right H (by omega)
    omega
  refine ⟨sh + 24 + 127, _, rfl, by omega, ?_, ?_⟩
  · split <;> omega
  · rw [hE]
    have h2 : (0 : ℚ) < 2 ^ 150 := by positivity
    generalize (2 : ℚ) ^ 150 = T at h2 ⊢
    have hcancel : ∀ x : ℚ, x * ((H : ℚ) * 2 * T) / T = x * (H : ℚ) * 2 := by
      intro x; field_simp; ring
    have hm' : ((2 * (q * H) + r : Nat) : ℚ) = (m : ℚ) := by rw [hdm]
    push_cast at hm'
    have hHle : (H : ℚ) * 16777216 ≤ (m : ℚ) := by
      have : ((16777216 * H : Nat) : ℚ) ≤ (m : ℚ) := by exact_mod_cast hlo
      push_cast at this
      linarith
    have hr0 : (0 : ℚ) ≤ (r : ℚ) := Nat.cast_nonneg r
    split
    · rename_i hup
      have hrH : (H : ℚ) ≤ (r : ℚ) := by
        have : H ≤ r := by omega
        exact_mod_cast this
      have hrq : (r : ℚ) ≤ (H : ℚ) * 2 := by
        have : r ≤ H * 2 := by omega
        exact_mod_cast this
      have hval : ((q + 1 : Nat) : ℚ) * ((H : ℚ) * 2 * T) / T - (m : ℚ) =
          (H : ℚ) * 2 - (r : ℚ) := by
        rw [hcancel, ← hm']; push_cast; ring
      rw [hval, abs_of_nonneg (by linarith)]
      linarith
    · rename_i hup
      have hrH : (r : ℚ) ≤ (H : ℚ) := by
        have : r ≤ H := by omega
        exact_mod_cast this
      have hval : (q : ℚ) * ((H : ℚ) * 2 * T) / T - (m : ℚ) = -(r : ℚ) := by
        rw [hcancel, ← hm']; ring
      rw [hval, abs_neg, abs_of_nonneg hr0]
      linarith

/-- The conversion `int → float` yields a finite float whose value differs from `v` by a
relative error of at most `2^-24`. -/
theorem intToFloat_near (v : Int) (hv : -2147483648 ≤ v ∧ v < 2147483648) :
    ∃ r : ℚ, (intToFloat v).toRat = some r ∧ |r - (v : ℚ)| * 16777216 ≤ |(v : ℚ)| := by
  by_cases hsmall : -16777216 ≤ v ∧ v ≤ 16777216
  · refine ⟨(v : ℚ), intToFloat_exact v hsmall, ?_⟩
    rw [sub_self, abs_zero, zero_mul]
    exact abs_nonneg _
  · obtain ⟨E, Q, hf, hE, hQ, herr⟩ := floatOfNat_near v.natAbs (by omega) (by omega)
    unfold intToFloat
    by_cases hneg : v < 0
    · have hcast : (v : ℚ) = -((v.natAbs : Nat) : ℚ) := by
        rw [← Int.cast_natCast, show (v.natAbs : Int) = -v by omega]
        simp
      have hb : 2147483648 + floatOfNat v.natAbs =
          1 * 2147483648 + (E * 8388608 + (Q - 8388608)) := by rw [hf, Nat.one_mul]
      refine ⟨-((Q : ℚ) * 2 ^ E / 2 ^ 150), ?_, ?_⟩
      · rw [if_pos hneg, hb, toRat_of_sig 1 E Q le_rfl hE hQ, if_pos rfl]
      · rw [hcast, abs_neg, Nat.abs_cast, ← abs_neg]
        have : -(-((Q : ℚ) * 2 ^ E / 2 ^ 150) - -((v.natAbs : Nat) : ℚ)) =
            (Q : ℚ) * 2 ^ E / 2 ^ 150 - ((v.natAbs : Nat) : ℚ) := by ring
        rw [this]
        exact herr
    · have hcast : (v : ℚ) = ((v.natAbs : Nat) : ℚ) := by
        rw [← Int.cast_natCast, show (v.natAbs : Int) = v by omega]
      have hb : floatOfNat v.natAbs =
          0 * 2147483648 + (E * 8388608 + (Q - 8388608)) := by rw [hf, Nat.zero_mul, Nat.zero_add]
      refine ⟨(Q : ℚ) * 2 ^ E / 2 ^ 150, ?_, ?_⟩
      · rw [if_neg hneg, hb, toRat_of_sig 0 E Q (by omega) hE hQ, if_neg (by omega)]
      · rw [hcast, Nat.abs_cast]
        exact herr

/-! ## Reads and writes through `float` -/

/-- C6: for an `Int`-typed accessor, every 32-bit `int` value `v` and every slot `(i, c)`
inside the buffer, `SetValue(v, i, c)` followed by `GetValue(float*, i, c)` returns true and
yields the `int → float` conversion of `v`: a finite float within relative error `2^-24`
of `v`, and exactly `v` when `|v| ≤ 2^24`. -/
theorem int_read_as_float (p : MfxAttributeProps) (hty : p.type = .Int) (v : Int)
    (hv : -2147483648 ≤ v ∧ v < 2147483648) (i c : Int) (hin : p.SlotInBuffer i c)
    (out : F32) :
    ∃ q, p.SetValueInt v i c = some (true, q) ∧
      q.GetValueFloat out i c = some (true, intToFloat v) ∧
      (∃ r : ℚ, (intToFloat v).toRat = some r ∧ |r - (v : ℚ)| * 16777216 ≤ |(v : ℚ)|) ∧
      (-16777216 ≤ v ∧ v ≤ 16777216 → (intToFloat v).toRat = some (v : ℚ)) := by
  obtain ⟨buf, hd, h0, h1⟩ := hin
  rw [hty] at h0 h1
  obtain ⟨buf1, hs, hl⟩ := load_after_store p 4 i c (natToLE 4 (v % 4294967296).toNat)
    (length_natToLE _ _) buf hd h0 h1
  refine ⟨{ p with data := some buf1 }, ?_, ?_, intToFloat_near v hv, intToFloat_exact v⟩
  · rw [SetValueInt_Int p hty, hs, Option.map_some']
  · rw [GetValueFloat_Int _ (show type { p with data := some buf1 } = .Int from hty)]
    show Option.map _ (load (some buf1) (p.slotOffset 4 i c) 4) = _
    rw [hl, Option.map_some', leToNat_natToLE, toInt32_of_le v hv]

/-- Witness for C6: stride 4, writing `-5` at index 0 and reading it back as float yields
`-5.0`. -/
theorem int_read_as_float_witness :
    ∃ q, SetValueInt ⟨.Int, 4, 1, some [0, 0, 0, 0], false⟩ (-5) 0 0 = some (true, q) ∧
      q.GetValueFloat (F32.ofBits 0) 0 0 = some (true, intToFloat (-5)) ∧
      (intToFloat (-5)).toRat = some (-5 : ℚ) :=
  have h := int_read_as_float ⟨.Int, 4, 1, some [0, 0, 0, 0], false⟩ rfl (-5) (by decide) 0 0
    ⟨[0, 0, 0, 0], rfl, by decide, by decide⟩ (F32.ofBits 0)
  h.elim fun q hq => ⟨q, hq.1, hq.2.1, by simpa using hq.2.2.2 (by decide)⟩

theorem ofBits_val (f : F32) : F32.ofBits (f.val % 256 ^ 4) = f := by
  have := f.isLt
  apply Fin.ext
  show f.val % 256 ^ 4 % 4294967296 = f.val
  rw [show (256 : Nat) ^ 4 = 4294967296 by norm_num]
  omega

/-- C8 as stated fails: `SetValue(1, 0, 0)` on a `Float`-typed accessor leaves the bytes
`00 00 80 3F` of the float `1.0` in the slot, not the bytes `01 00 00 00` of the integer
`1`. -/
theorem int_into_float_slot_not_punned :
    ∃ q, floatExample.SetValueInt 1 0 0 = some (true, q) ∧
      load q.data (q.slotOffset 4 0 0) 4 = some [0, 0, 128, 63] ∧
      load q.data (q.slotOffset 4 0 0) 4 ≠ some (natToLE 4 (1 % 4294967296 : Int).toNat) ∧
      natToLE 4 (1 % 4294967296 : Int).toNat = [1, 0, 0, 0] :=
  ⟨{ floatExample with data := some [0, 0, 128, 63] }, by decide, by decide, by decide,
    by decide⟩

theorem setInt_on_float_slot (p : MfxAttributeProps) (hty : p.type = .Float)
    (v i c : Int) (hin : p.SlotInBuffer i c) :
    ∃ q, p.SetValueInt v i c = some (true, q) ∧
      load q.data (p.slotOffset 4 i c) 4 = some (natToLE 4 (intToFloat v).val) ∧
      ∀ out, q.GetValueFloat out i c = some (true, intToFloat v) := by
  obtain ⟨buf, hd, h0, h1⟩ := hin
  rw [hty] at h0 h1
  obtain ⟨buf1, hs, hl⟩ := load_after_store p 4 i c (natToLE 4 (intToFloat v).val)
    (length_natToLE _ _) buf hd h0 h1
  refine ⟨{ p with data := some buf1 }, ?_, hl, ?_⟩
  · rw [SetValueInt_Float p hty, hs, Option.map_some']
  · intro out
    rw [GetValueFloat_Float _ (show type { p with data := some buf1 } = .Float from hty)]
    show Option.map _ (load (some buf1) (p.slotOffset 4 i c) 4) = _
    rw [hl, Option.map_some', leToNat_natToLE, ofBits_val]

/-- C8, amended: `SetValue(int v, i, c)` on a `Float`-typed accessor reinterprets the
destination slot as the stored type (a 4-byte float at offset `i*stride + 4*c`) and stores
`v` converted numerically to float: for every `v` and every slot inside the buffer the call
returns true, the four bytes of the slot afterwards are the 32-bit pattern of the float
converted from `v`, and `GetValue(float*, i, c)` then yields that float. -/
theorem int_into_float_slot_converts (p : MfxAttributeProps) (hty : p.type = .Float)
    (v i c : Int) (hin : p.SlotInBuffer i c) :
    ∃ q, p.SetValueInt v i c = some (true, q) ∧
      load q.data (p.elementOffset i + 4 * c) 4 = some (natToLE 4 (intToFloat v).val) ∧
      ∀ out, q.GetValueFloat out i c = some (true, intToFloat v) :=
  setInt_on_float_slot p hty v i c hin

/-- Witness for the amended C8: for `v = 1` the slot holds the bytes of the float `1.0`. -/
theorem int_into_float_slot_converts_witness :
    (intToFloat 1).toRat = some (1 : ℚ) ∧ natToLE 4 (intToFloat 1).val = [0, 0, 128, 63] ∧
    ∃ q, floatExample.SetValueInt 1 0 0 = some (true, q) ∧
      load q.data (floatExample.elementOffset 0 + 4 * 0) 4 =
        some (natToLE 4 (intToFloat 1).val) ∧
      ∀ out, q.GetValueFloat out 0 0 = some (true, intToFloat 1) :=
  ⟨by simpa using intToFloat_exact 1 (by decide), by decide,
    int_into_float_slot_converts floatExample rfl 1 0 0
      ⟨[0, 0, 0, 0], rfl, by decide, by decide⟩⟩

/-- C9 as stated fails: `SetValue(1, 0, 0)` on a `Float`-typed accessor over four zero bytes
returns true, not false, and changes the buffer. -/
theorem int_setter_on_float_succeeds_example :
    floatExample.SetValueInt 1 0 0 =
      some (true, { floatExample with data := some [0, 0, 128, 63] }) ∧
    floatExample.SetValueInt 1 0 0 ≠ some (false, floatExample) ∧
    floatExample.data ≠ some [0, 0, 128, 63] :=
  ⟨by decide, by decide, by decide⟩

/-- C9, amended: the `Float` case of the int-argument setter is handled.  For every `int`
value `v`, index `i` and component `c`, `SetValue(v, i, c)` on a `Float`-typed accessor
never takes the failure path: a call that returns, returns true; and on a slot inside the
buffer it does return true, having written the slot, so that `GetValue(float*, i, c)`
afterwards yields the float converted from `v`. -/
theorem int_setter_handles_float (p : MfxAttributeProps) (hty : p.type = .Float)
    (v i c : Int) :
    (∀ r, p.SetValueInt v i c = some r → r.1 = true) ∧
    (p.SlotInBuffer i c →
      ∃ q, p.SetValueInt v i c = some (true, q) ∧
        ∀ out, q.GetValueFloat out i c = some (true, intToFloat v)) := by
  constructor
  · intro r hr
    rw [SetValueInt_Float p hty] at hr
    simp only [Option.map_eq_some'] at hr
    obtain ⟨_, -, rfl⟩ := hr
    rfl
  · intro hin
    obtain ⟨q, h1, -, h3⟩ := setInt_on_float_slot p hty v i c hin
    exact ⟨q, h1, h3⟩

/-- Witness for the amended C9 on the one-element `Float` accessor. -/
theorem int_setter_handles_float_witness :
    ∃ q, floatExample.SetValueInt (-5) 0 0 = some (true, q) ∧
      ∀ out, q.GetValueFloat out 0 0 = some (true, intToFloat (-5)) :=
  (int_setter_handles_float floatExample rfl (-5) 0 0).2
    ⟨[0, 0, 0, 0], rfl, by decide, by decide⟩

/-! ## Write frame -/

theorem store_spec (data : Option (List Byte)) (off : Int) (bs buf1 : List Byte)
    (h : store data off bs = some buf1) :
    ∃ buf, data = some buf ∧ buf1.length = buf.length ∧
      (0 ≤ off ∧ off + (bs.length : Int) ≤ (buf.length : Int)) ∧
      ∀ k : Nat, ¬ (off ≤ (k : Int) ∧ (k : Int) < off + (bs.length : Int)) →
        buf1[k]? = buf[k]? := by
  cases data with
  | none => simp [store] at h
  | some buf =>
    exact ⟨buf, rfl, store_length buf buf1 off bs h, ((store_some_iff buf buf1 off bs).1 h).1,
      fun k hk => store_frame buf buf1 off bs h k hk⟩

/-- Write frame in terms of the element offset the code computes (the `int` product
`i*stride`, `elementOffset`): a successful `SetValue(_, i, c)` changes only the `w` bytes
from `elementOffset i + c*w` on, with `w` the size of the stored type. -/
theorem write_frame_at_elementOffset (p q : MfxAttributeProps) (vi : Int) (vf : F32) (i c : Int)
    (h : p.SetValueInt vi i c = some (true, q) ∨ p.SetValueFloat vf i c = some (true, q)) :
    ∃ w buf buf1, p.data = some buf ∧ q.data = some buf1 ∧
      ((p.type = .UByte ∧ w = 1) ∨ ((p.type = .Int ∨ p.type = .Float) ∧ w = 4)) ∧
      buf1.length = buf.length ∧
      (0 ≤ p.elementOffset i + c * (w : Int) ∧
        p.elementOffset i + c * (w : Int) + (w : Int) ≤ (buf.length : Int)) ∧
      ∀ k : Nat,
        ¬ (p.elementOffset i + c * (w : Int) ≤ (k : Int) ∧
            (k : Int) < p.elementOffset i + c * (w : Int) + (w : Int)) →
          buf1[k]? = buf[k]? := by
  have key : ∀ (w : Nat) (bs : List Byte), bs.length = w →
      (store p.data (p.slotOffset w i c) bs).map
        (fun b => (true, { p with data := some b })) = some (true, q) →
      ∃ buf buf1, p.data = some buf ∧ q.data = some buf1 ∧ buf1.length = buf.length ∧
        (0 ≤ p.elementOffset i + c * (w : Int) ∧
          p.elementOffset i + c * (w : Int) + (w : Int) ≤ (buf.length : Int)) ∧
        ∀ k : Nat,
          ¬ (p.elementOffset i + c * (w : Int) ≤ (k : Int) ∧
              (k : Int) < p.elementOffset i + c * (w : Int) + (w : Int)) →
            buf1[k]? = buf[k]? := by
    intro w bs hbs hm
    simp only [Option.map_eq_some', Prod.mk.injEq, true_and] at hm
    obtain ⟨buf1, hs, rfl⟩ := hm
    obtain ⟨buf, hd, hlen, hr, hfr⟩ := store_spec _ _ _ _ hs
    have hoff : p.slotOffset w i c = p.elementOffset i + c * (w : Int) := by
      unfold slotOffset
      rw [mul_comm]
    rw [hbs, hoff] at hr hfr
    exact ⟨buf, buf1, hd, rfl, hlen, hr, hfr⟩
  cases hty : p.type with
  | Unknown =>
    rcases h with h | h
    · simp [SetValueInt, hty] at h
    · simp [SetValueFloat, hty] at h
  | UByte =>
    rcases h with h | h
    · rw [SetValueInt_UByte p hty] at h
      obtain ⟨buf, buf1, h1, h2, h3, h4, h5⟩ := key 1 _ (length_natToLE _ _) h
      exact ⟨1, buf, buf1, h1, h2, Or.inl ⟨rfl, rfl⟩, h3, h4, h5⟩
    · simp [SetValueFloat, hty] at h
  | Int =>
    rcases h with h | h
    · rw [SetValueInt_Int p hty] at h
      obtain ⟨buf, buf1, h1, h2, h3, h4, h5⟩ := key 4 _ (length_natToLE _ _) h
      exact ⟨4, buf, buf1, h1, h2, Or.inr ⟨Or.inl rfl, rfl⟩, h3, h4, h5⟩
    · simp [SetValueFloat, hty] at h
  | Float =>
    rcases h with h | h
    · rw [SetValueInt_Float p hty] at h
      obtain ⟨buf, buf1, h1, h2, h3, h4, h5⟩ := key 4 _ (length_natToLE _ _) h
      exact ⟨4, buf, buf1, h1, h2, Or.inr ⟨Or.inr rfl, rfl⟩, h3, h4, h5⟩
    · rw [SetValueFloat_Float p hty] at h
      obtain ⟨buf, buf1, h1, h2, h3, h4, h5⟩ := key 4 _ (length_natToLE _ _) h
      exact ⟨4, buf, buf1, h1, h2, Or.inr ⟨Or.inr rfl, rfl⟩, h3, h4, h5⟩

/-- C10 as stated fails when the `int` product `i*stride` overflows: on an `Int` accessor
with stride `65536` over eight bytes, `SetValue(-1, 65536, 0)` returns true and changes
bytes 0..3, and byte 0 is outside the range `[i*stride + c*4, i*stride + c*4 + 4)`, which
starts at `2^32`. -/
theorem write_outside_stated_range_on_overflow :
    SetValueInt ⟨.Int, 65536, 1, some [1, 2, 3, 4, 5, 6, 7, 8], false⟩ (-1) 65536 0 =
      some (true, ⟨.Int, 65536, 1, some [255, 255, 255, 255, 5, 6, 7, 8], false⟩) ∧
    ¬ ((65536 : Int) * 65536 + 0 * 4 ≤ ((0 : Nat) : Int) ∧
        ((0 : Nat) : Int) < (65536 : Int) * 65536 + 0 * 4 + 4) ∧
    ([255, 255, 255, 255, 5, 6, 7, 8] : List Byte)[0]? ≠
      ([1, 2, 3, 4, 5, 6, 7, 8] : List Byte)[0]? :=
  ⟨by decide, by decide, by decide⟩

/-- C10, amended: address computation and write frame, when the `int` product `i*stride`
does not overflow.  Every successful `SetValue(_, i, c)`, with an `int` or a `float`
argument, then changes only the bytes of the `c`-th slot typed by the stored type at the
element address, i.e. the byte range `[i*stride + c*w, i*stride + c*w + w)` with `w = 1` for
`UByte` and `w = 4` for `Int` and `Float`: that range lies inside the buffer, the buffer
keeps its length, and every byte outside the range is the same before and after. -/
theorem write_frame_no_overflow (p q : MfxAttributeProps) (vi : Int) (vf : F32) (i c : Int)
    (hov : -2147483648 ≤ i * p.stride ∧ i * p.stride < 2147483648)
    (h : p.SetValueInt vi i c = some (true, q) ∨ p.SetValueFloat vf i c = some (true, q)) :
    ∃ w buf buf1, p.data = some buf ∧ q.data = some buf1 ∧
      ((p.type = .UByte ∧ w = 1) ∨ ((p.type = .Int ∨ p.type = .Float) ∧ w = 4)) ∧
      buf1.length = buf.length ∧
      (0 ≤ i * p.stride + c * (w : Int) ∧
        i * p.stride + c * (w : Int) + (w : Int) ≤ (buf.length : Int)) ∧
      ∀ k : Nat,
        ¬ (i * p.stride + c * (w : Int) ≤ (k : Int) ∧
            (k : Int) < i * p.stride + c * (w : Int) + (w : Int)) →
          buf1[k]? = buf[k]? := by
  have hw := write_frame_at_elementOffset p q vi vf i c h
  rw [elementOffset_eq_mul p i hov] at hw
  exact hw

/-- Witness for the amended C10: writing the `int` `-1` into slot `(1, 0)` of an `Int`
accessor with stride 4 over eight bytes changes bytes 4..7 only. -/
theorem write_frame_no_overflow_witness :
    intExample.SetValueInt (-1) 1 0 = some (true, intExampleAfter) ∧
    ∃ w buf buf1, intExample.data = some buf ∧ intExampleAfter.data = some buf1 ∧
      ((intExample.type = .UByte ∧ w = 1) ∨
        ((intExample.type = .Int ∨ intExample.type = .Float) ∧ w = 4)) ∧
      buf1.length = buf.length ∧
      (0 ≤ 1 * intExample.stride + 0 * (w : Int) ∧
        1 * intExample.stride + 0 * (w : Int) + (w : Int) ≤ (buf.length : Int)) ∧
      ∀ k : Nat,
        ¬ (1 * intExample.stride + 0 * (w : Int) ≤ (k : Int) ∧
            (k : Int) < 1 * intExample.stride + 0 * (w : Int) + (w : Int)) →
          buf1[k]? = buf[k]? :=
  ⟨by decide,
    write_frame_no_overflow intExample intExampleAfter (-1) (F32.ofBits 0) 1 0
      ⟨by decide, by decide⟩ (Or.inl (by decide))⟩

/-! ## Unsigned widening of `UByte` reads -/

/-- C12: `componentCount` and `isOwner` are metadata only.  Two accessors that agree on
type, stride and buffer (and differ arbitrarily in `componentCount` and `isOwner`) give, for
every call with the same arguments, whatever the component: the same result of both
`GetValue`s (boolean and output value) and the same boolean and resulting buffer of both
`SetValue`s. -/
theorem metadata_fields_ignored (p q : MfxAttributeProps) (ht : p.type = q.type)
    (hs : p.stride = q.stride) (hd : p.data = q.data) (vi : Int) (vf : F32) (i c : Int) :
    p.GetValueInt vi i c = q.GetValueInt vi i c ∧
    p.GetValueFloat vf i c = q.GetValueFloat vf i c ∧
    (p.SetValueInt vi i c).map (fun r => (r.1, r.2.data)) =
      (q.SetValueInt vi i c).map (fun r => (r.1, r.2.data)) ∧
    (p.SetValueFloat vf i c).map (fun r => (r.1, r.2.data)) =
      (q.SetValueFloat vf i c).map (fun r => (r.1, r.2.data)) := by
  obtain ⟨pt, ps, pn, pd, po⟩ := p
  obtain ⟨qt, qs, qn, qd, qo⟩ := q
  simp only at ht hs hd
  subst ht hs hd
  refine ⟨?_, ?_, ?_, ?_⟩
  · cases pt <;> rfl
  · cases pt <;> rfl
  · cases pt <;>
      simp [SetValueInt, slotOffset, elementOffset, Option.map_map, Function.comp_def]
  · cases pt <;>
      simp [SetValueFloat, slotOffset, elementOffset, Option.map_map, Function.comp_def]

/-- Witness for C12: one component declared versus none, owner versus not; the accessed
component `1` is beyond both counts and still inside the buffer. -/
theorem metadata_fields_ignored_witness :
    GetValueInt ⟨.UByte, 2, 1, some [5, 6, 7, 8], true⟩ 0 1 1 =
      GetValueInt ⟨.UByte, 2, 0, some [5, 6, 7, 8], false⟩ 0 1 1 ∧
    GetValueInt ⟨.UByte, 2, 1, some [5, 6, 7, 8], true⟩ 0 1 1 = some (true, 8) :=
  ⟨(metadata_fields_ignored ⟨.UByte, 2, 1, some [5, 6, 7, 8], true⟩
      ⟨.UByte, 2, 0, some [5, 6, 7, 8], false⟩ rfl rfl rfl 0 (F32.ofBits 0) 1 1).1,
    by decide⟩

/-! ## Slot independence -/

theorem load_of_store_disjoint (buf buf1 : List Byte) (off : Int) (bs : List Byte)
    (h : store (some buf) off bs = some buf1) (o2 : Int) (w : Nat)
    (hdis : o2 + (w : Int) ≤ off ∨ off + (bs.length : Int) ≤ o2) :
    load (some buf1) o2 w = load (some buf) o2 w := by
  have hlen := store_length buf buf1 off bs h
  simp only [load, hlen]
  by_cases hr : 0 ≤ o2 ∧ o2 + (w : Int) ≤ (buf.length : Int)
  · rw [if_pos hr, if_pos hr]
    congr 1
    apply List.ext_getElem?
    intro k
    simp only [List.getElem?_take, List.getElem?_drop]
    by_cases hk : k < w
    · rw [if_pos hk, if_pos hk]
      exact store_frame buf buf1 off bs h (o2.toNat + k) (by omega)
    · rw [if_neg hk, if_neg hk]
  · rw [if_neg hr, if_neg hr]

theorem slots_disjoint (S n w i j c d : Int) (hw : 1 ≤ w) (hS : w * n ≤ S)
    (hc : 0 ≤ c ∧ c < n) (hd : 0 ≤ d ∧ d < n)
    (hne : (i, c) ≠ (j, d)) :
    i * S + w * c + w ≤ j * S + w * d ∨ j * S + w * d + w ≤ i * S + w * c := by
  have hwc : w * (c + 1) ≤ w * n := mul_le_mul_of_nonneg_left (by omega) (by omega)
  have hwd : w * (d + 1) ≤ w * n := mul_le_mul_of_nonneg_left (by omega) (by omega)
  have hwc0 : 0 ≤ w * c := mul_nonneg (by omega) hc.1
  have hwd0 : 0 ≤ w * d := mul_nonneg (by omega) hd.1
  have hS0 : 0 ≤ S := by nlinarith
  rcases lt_trichotomy i j with hlt | heq | hgt
  · left
    have : (i + 1) * S ≤ j * S := mul_le_mul_of_nonneg_right (by omega) hS0
    nlinarith
  · subst heq
    have hcd : c ≠ d := fun h => hne (by rw [h])
    rcases lt_or_gt_of_ne hcd with h | h
    · left
      have : w * (c + 1) ≤ w * d := mul_le_mul_of_nonneg_left (by omega) (by omega)
      nlinarith
    · right
      have : w * (d + 1) ≤ w * c := mul_le_mul_of_nonneg_left (by omega) (by omega)
      nlinarith
  · right
    have : (j + 1) * S ≤ i * S := mul_le_mul_of_nonneg_right (by omega) hS0
    nlinarith

theorem get_after_set_other (p : MfxAttributeProps) (w : Nat) (hw : (1 : Int) ≤ (w : Int))
    (hS : (w : Int) * p.componentCount ≤ p.stride) (i c j d : Int)
    (hi : 0 ≤ i) (hj : 0 ≤ j)
    (hc : 0 ≤ c ∧ c < p.componentCount) (hd : 0 ≤ d ∧ d < p.componentCount)
    (hne : (i, c) ≠ (j, d))
    (hoi : i * p.stride < 2147483648) (hoj : j * p.stride < 2147483648)
    (bs : List Byte) (hbs : bs.length = w) (buf buf1 : List Byte) (hd0 : p.data = some buf)
    (hs : store p.data (p.slotOffset w i c) bs = some buf1) :
    load (some buf1) (p.slotOffset w j d) w = load (some buf) (p.slotOffset w j d) w ∧
    (i * p.stride + (w : Int) * c + (w : Int) ≤ j * p.stride + (w : Int) * d ∨
      j * p.stride + (w : Int) * d + (w : Int) ≤ i * p.stride + (w : Int) * c) := by
  have hdis := slots_disjoint p.stride p.componentCount w i j c d hw hS hc hd hne
  have hS0 : 0 ≤ p.stride := by nlinarith [hc.1, hc.2]
  have hoffi : p.elementOffset i = i * p.stride :=
    elementOffset_eq_mul p i ⟨by have := mul_nonneg hi hS0; omega, hoi⟩
  have hoffj : p.elementOffset j = j * p.stride :=
    elementOffset_eq_mul p j ⟨by have := mul_nonneg hj hS0; omega, hoj⟩
  refine ⟨?_, hdis⟩
  rw [hd0] at hs
  apply load_of_store_disjoint buf buf1 _ bs hs
  unfold slotOffset
  rw [hoffi, hoffj, hbs]
  omega

theorem alias_of_wrapped_offset (buf : List Byte) (hlen : 4294967300 ≤ buf.length)
    (out : Int) :
    GetValueInt ⟨.Int, 65536, 1, some buf, false⟩ out 0 0 =
      some (true, toInt32 (leToNat (buf.take 4))) ∧
    ∃ q, SetValueInt ⟨.Int, 65536, 1, some buf, false⟩ (-1) 65536 0 = some (true, q) ∧
      q.GetValueInt out 0 0 = some (true, -1) := by
  have hoff : slotOffset ⟨.Int, 65536, 1, some buf, false⟩ 4 65536 0 = 0 := by
    show toInt32 (65536 * 65536) + ((4 : Nat) : Int) * 0 = 0
    decide
  have hoff0 : slotOffset ⟨.Int, 65536, 1, some buf, false⟩ 4 0 0 = 0 := by
    show toInt32 (0 * 65536) + ((4 : Nat) : Int) * 0 = 0
    decide
  have hlen' : (0 : Int) + ((4 : Nat) : Int) ≤ (buf.length : Int) := by omega
  constructor
  · rw [GetValueInt_Int _ rfl]
    show Option.map _ (load (some buf) (slotOffset ⟨.Int, 65536, 1, some buf, false⟩ 4 0 0) 4) = _
    rw [hoff0, load_isSome_of_inRange buf 0 4 ⟨le_rfl, hlen'⟩, Option.map_some']
    rfl
  · obtain ⟨buf1, hs, hl⟩ := load_after_store ⟨.Int, 65536, 1, some buf, false⟩ 4 65536 0
      (natToLE 4 ((-1 : Int) % 4294967296).toNat) (length_natToLE _ _) buf rfl
      (by rw [hoff]) (by rw [hoff]; exact hlen')
    refine ⟨⟨.Int, 65536, 1, some buf1, false⟩, ?_, ?_⟩
    · rw [SetValueInt_Int _ rfl, hs, Option.map_some']
    · rw [GetValueInt_Int _ rfl]
      show Option.map _ (load (some buf1) (slotOffset ⟨.Int, 65536, 1, some buf1, false⟩ 4 0 0) 4) = _
      have hoff1 : slotOffset ⟨.Int, 65536, 1, some buf1, false⟩ 4 0 0 = 0 := by
        show toInt32 (0 * 65536) + ((4 : Nat) : Int) * 0 = 0
        decide
      rw [hoff] at hl
      rw [hoff1, hl, Option.map_some', leToNat_natToLE]
      decide

theorem take_four_replicate (n : Nat) (h : 4 ≤ n) (b : Byte) :
    (List.replicate n b).take 4 = [b, b, b, b] := by
  rw [List.take_replicate, Nat.min_eq_left h]
  rfl

/-- C13 as stated fails when the `int` product `i*stride` overflows: an `Int` accessor with
`componentCount = 1` and stride `65536` over a buffer of `2^32 + 4` zero bytes.  The slots
`(65536, 0)` and `(0, 0)` are distinct and both inside the buffer (the first at byte offset
`2^32`), yet `SetValue(-1, 65536, 0)` succeeds and changes what `GetValue(int*, 0, 0)`
returns from `0` to `-1`, because `65536 * 65536` is `0` as an `int`. -/
theorem slots_alias_on_int_overflow :
    (0 ≤ (65536 : Int) * 65536 + 4 * 0 ∧
      (65536 : Int) * 65536 + 4 * 0 + 4 ≤
        ((List.replicate 4294967300 (0 : Byte)).length : Int)) ∧
    GetValueInt ⟨.Int, 65536, 1, some (List.replicate 4294967300 0), false⟩ 7 0 0 =
      some (true, 0) ∧
    ∃ q, SetValueInt ⟨.Int, 65536, 1, some (List.replicate 4294967300 0), false⟩ (-1) 65536 0 =
        some (true, q) ∧
      q.GetValueInt 7 0 0 = some (true, -1) := by
  have hlen : (List.replicate 4294967300 (0 : Byte)).length = 4294967300 :=
    List.length_replicate _ _
  have h := alias_of_wrapped_offset (List.replicate 4294967300 0) (le_of_eq hlen.symm) 7
  refine ⟨?_, ?_, h.2⟩
  · rw [hlen]
    decide
  · rw [h.1, take_four_replicate 4294967300 (by decide) 0]
    decide

/-- The same aliasing on a small buffer: with stride `65536` over eight bytes the call
`SetValue(-1, 65536, 0)` writes the bytes of slot `(0, 0)`. -/
theorem slots_alias_small_example :
    GetValueInt ⟨.Int, 65536, 1, some [1, 2, 3, 4, 5, 6, 7, 8], false⟩ 7 0 0 =
      some (true, 67305985) ∧
    SetValueInt ⟨.Int, 65536, 1, some [1, 2, 3, 4, 5, 6, 7, 8], false⟩ (-1) 65536 0 =
      some (true, ⟨.Int, 65536, 1, some [255, 255, 255, 255, 5, 6, 7, 8], false⟩) ∧
    GetValueInt ⟨.Int, 65536, 1, some [255, 255, 255, 255, 5, 6, 7, 8], false⟩ 7 0 0 =
      some (true, -1) :=
  ⟨by decide, by decide, by decide⟩

/-- C13, amended: slot independence under a well-formed stride, when the `int` products
`i*stride` and `j*stride` do not overflow.  For an `Int`-typed accessor with
`componentCount = n ≥ 1` and `stride ≥ 4*n` (likewise a `UByte`-typed one with
`stride ≥ n`), distinct slots `(i, c) ≠ (j, d)` with `i, j ≥ 0` and `0 ≤ c, d < n`, the slot
`(j, d)` inside the buffer: a successful `SetValue(v, i, c)` leaves the value returned by
`GetValue(int*, j, d)` unchanged, and the byte ranges of the two slots do not overlap. -/
theorem slot_independence (p q : MfxAttributeProps) (v out : Int) (i c j d : Int)
    (hty : (p.type = .Int ∧ 4 * p.componentCount ≤ p.stride) ∨
      (p.type = .UByte ∧ p.componentCount ≤ p.stride))
    (hi : 0 ≤ i) (hj : 0 ≤ j)
    (hc : 0 ≤ c ∧ c < p.componentCount) (hd : 0 ≤ d ∧ d < p.componentCount)
    (hne : (i, c) ≠ (j, d))
    (hoi : i * p.stride < 2147483648) (hoj : j * p.stride < 2147483648)
    (hset : p.SetValueInt v i c = some (true, q)) (hin : p.SlotInBuffer j d) :
    ∃ x, p.GetValueInt out j d = some (true, x) ∧ q.GetValueInt out j d = some (true, x) ∧
      (i * p.stride + (typeSize p.type : Int) * c + (typeSize p.type : Int) ≤
          j * p.stride + (typeSize p.type : Int) * d ∨
        j * p.stride + (typeSize p.type : Int) * d + (typeSize p.type : Int) ≤
          i * p.stride + (typeSize p.type : Int) * c) := by
  obtain ⟨buf, hd0, hj0, hj1⟩ := hin
  rcases hty with ⟨hty, hS⟩ | ⟨hty, hS⟩
  · rw [hty] at hj0 hj1 ⊢
    rw [SetValueInt_Int p hty] at hset
    simp only [Option.map_eq_some', Prod.mk.injEq, true_and] at hset
    obtain ⟨buf1, hs, rfl⟩ := hset
    obtain ⟨hfr, hdis⟩ := get_after_set_other p 4 (by norm_num) (by exact_mod_cast hS) i c j d
      hi hj hc hd hne hoi hoj _ (length_natToLE _ _) buf buf1 hd0 hs
    have hld := load_isSome_of_inRange buf (p.slotOffset 4 j d) 4 ⟨hj0, hj1⟩
    refine ⟨toInt32 (leToNat (List.take 4 (List.drop (p.slotOffset 4 j d).toNat buf))),
      ?_, ?_, hdis⟩
    · rw [GetValueInt_Int p hty, hd0, hld, Option.map_some']
    · rw [GetValueInt_Int _ (show type { p with data := some buf1 } = .Int from hty)]
      show Option.map _ (load (some buf1) (p.slotOffset 4 j d) 4) = _
      rw [hfr, hld, Option.map_some']
  · rw [hty] at hj0 hj1 ⊢
    rw [SetValueInt_UByte p hty] at hset
    simp only [Option.map_eq_some', Prod.mk.injEq, true_and] at hset
    obtain ⟨buf1, hs, rfl⟩ := hset
    obtain ⟨hfr, hdis⟩ := get_after_set_other p 1 (by norm_num)
      (by rw [Nat.cast_one, one_mul]; exact hS) i c j d
      hi hj hc hd hne hoi hoj _ (length_natToLE _ _) buf buf1 hd0 hs
    have hld := load_isSome_of_inRange buf (p.slotOffset 1 j d) 1 ⟨hj0, hj1⟩
    refine ⟨(leToNat (List.take 1 (List.drop (p.slotOffset 1 j d).toNat buf)) : Int),
      ?_, ?_, hdis⟩
    · rw [GetValueInt_UByte p hty, hd0, hld, Option.map_some']
    · rw [GetValueInt_UByte _ (show type { p with data := some buf1 } = .UByte from hty)]
      show Option.map _ (load (some buf1) (p.slotOffset 1 j d) 1) = _
      rw [hfr, hld, Option.map_some']

/-- Witness for the amended C13: stride 4, one component; writing slot `(1, 0)` leaves the
value `0x04030201` of slot `(0, 0)`. -/
theorem slot_independence_witness :
    intExample.GetValueInt 0 0 0 = some (true, 67305985) ∧
    ∃ x, intExample.GetValueInt 0 0 0 = some (true, x) ∧
      intExampleAfter.GetValueInt 0 0 0 = some (true, x) ∧
      (1 * intExample.stride + (typeSize intExample.type : Int) * 0 +
            (typeSize intExample.type : Int) ≤
          0 * intExample.stride + (typeSize intExample.type : Int) * 0 ∨
        0 * intExample.stride + (typeSize intExample.type : Int) * 0 +
            (typeSize intExample.type : Int) ≤
          1 * intExample.stride + (typeSize intExample.type : Int) * 0) :=
  ⟨by decide,
    slot_independence intExample intExampleAfter (-1) 0 1 0 0 0
      (Or.inl ⟨rfl, by decide⟩) (by decide) (by decide) (by decide) (by decide) (by decide)
      (by decide) (by decide) (by decide)
      ⟨[1, 2, 3, 4, 5, 6, 7, 8], rfl, by decide, by decide⟩⟩

/-! ## Metadata and read frame -/

end MfxAttributeProps

end Mfx
